import Mathlib

/-!
Shallow embedding of the agent-memory-proxy synchronization engine
(`src/sync.py`, `src/file_ops.py`, `src/config.py`, `src/watcher.py`).

Paths are modelled as lists of components (Python `pathlib.Path`), the
filesystem as a finite association list of file paths to string contents
plus a list of existing directories.  Fallible I/O is modelled by an
error-injection predicate `ioErr : Path → Bool` saying which paths raise
on open/read/write; Python `try/except` blocks become explicit branches.
Log output is modelled as a list of (level, message) entries.
-/

set_option autoImplicit false

namespace AgentMemoryProxy

/-- A filesystem path, as its list of components (`pathlib.Path` parts). -/
abbrev Path := List String

/-- Helper for `splitPath`: split a character list on `/`, accumulating the
current component in reverse. -/
def splitPathAux : List Char → List Char → Path
  | [], acc => [String.mk acc.reverse]
  | c :: rest, acc =>
      if c = '/' then String.mk acc.reverse :: splitPathAux rest []
      else splitPathAux rest (c :: acc)

/-- Splitting a raw configuration string on `/`, as `pathlib` does when a
string such as `".cursor/rules/project.mdc"` is joined onto a `Path`. -/
def splitPath (s : String) : Path := splitPathAux s.toList []

/-- Python `Path.name`: the final component (empty for the root). -/
def pathName (p : Path) : String := p.getLastD ("")

/-- Python `Path.parent`: the path without its final component. -/
def pathParent (p : Path) : Path := p.dropLast

/-- Python `a.is_relative_to(b)`: `b`'s components are a prefix of
`a`'s. -/
def isRelativeTo (a b : Path) : Bool := b.isPrefixOf a

/-- Log levels of the `logging` module as used by the program. -/
inductive LogLevel where
  | debug
  | info
  | warning
  | error
deriving DecidableEq, Repr

/-- One emitted log line. -/
structure LogEntry where
  level : LogLevel
  msg : String
deriving DecidableEq, Repr

/-- Rendering a path for a log message (POSIX display form). -/
def pathToString (p : Path) : String := String.intercalate ("/") p

/-- The filesystem: contents of regular files (an association list keyed by
path, at most one entry per path is maintained by `setFile`), and the set of
directories that exist. -/
structure FS where
  files : List (Path × String)
  dirs : List Path
deriving DecidableEq, Repr

/-- Content of the file at `p`, `none` when no such file exists
(`Path.exists` / `open` for reading). -/
def getFile (fs : FS) (p : Path) : Option String :=
  (fs.files.find? (fun e => e.1 = p)).map (·.2)

/-- Overwriting (or creating) the file at `p` with content `c`
(`open(path, "w")` followed by a full `write`). -/
def setFile (fs : FS) (p : Path) (c : String) : FS :=
  { fs with files := (p, c) :: fs.files.filter (fun e => ¬(e.1 = p)) }

/-- Python `path.mkdir(parents=True, exist_ok=True)`: `p` and every ancestor of
`p` exist afterwards. -/
def mkdirs (fs : FS) (p : Path) : FS :=
  { fs with dirs := (List.range (p.length + 1)).map (fun n => p.take n) ++ fs.dirs }

/-- Whether the directory `p` exists. -/
def hasDir (fs : FS) (p : Path) : Bool := fs.dirs.contains p

/-- Embedding of `FileOperations.write_file`: create the target's parent directory chain,
then overwrite the file.  The write itself may raise (injected by `ioErr`);
the directory creation has already happened when it does.  Returns the new
filesystem and whether the write succeeded. -/
def write_file (ioErr : Path → Bool) (fs : FS) (p : Path) (content : String) :
    FS × Bool :=
  let fs1 := mkdirs fs (pathParent p)
  if ioErr p then (fs1, false) else (setFile fs1 p content, true)

/-- Embedding of `MemorySyncHandler.sync_file`: if the source does not exist, log a
warning and return; otherwise read the source fully and overwrite the
target with it.  Every exception raised by the read or the write is caught
inside this function and turned into an error log entry, so the function is
total: it always returns a filesystem and its log lines. -/
def sync_file (ioErr : Path → Bool) (fs : FS) (source target : Path) :
    FS × List LogEntry :=
  match getFile fs source with
  | none =>
      (fs, [⟨.warning, "Source file " ++ pathToString source ++ " does not exist"⟩])
  | some content =>
      if ioErr source then
        (fs, [⟨.error, "Failed to sync " ++ pathToString source ++ " to " ++
          pathToString target⟩])
      else
        match write_file ioErr fs target content with
        | (fs1, true) => (fs1, [])
        | (fs1, false) =>
            (fs1, [⟨.error, "Failed to sync " ++ pathToString source ++ " to " ++
              pathToString target⟩])

/-- Embedding of `MemorySyncHandler._sync_all_targets`: sync every `(source, target)`
pair in order, unconditionally appending each target to the list of synced
paths.  Returns the final filesystem, the synced paths, and the logs. -/
def sync_all_targets (ioErr : Path → Bool) (fs : FS) :
    List (Path × Path) → FS × List Path × List LogEntry
  | [] => (fs, [], [])
  | (source_path, target_path) :: rest =>
      let (fs1, logs1) := sync_file ioErr fs source_path target_path
      let (fs2, synced, logs2) := sync_all_targets ioErr fs1 rest
      (fs2, target_path :: synced, logs1 ++ logs2)

/-- The validated configuration consumed by the sync engine
(`MemoryProxyConfig` after `_load_and_validate_config`): the watched
directory, the target → source mapping table in declaration order (keys
unique), and the two feature flags.  Targets and sources are kept as the
raw strings of the configuration file, as in the Python object. -/
structure MemoryProxyConfig where
  directory : Path
  mappings : List (String × String)
  recursive : Bool
  respect_gitignore : Bool
deriving DecidableEq, Repr

/-- Embedding of `FileMatcher.find_sync_targets`: for each mapping `(target, source)`,
emit a direct match when the modified file is exactly `directory / source`,
otherwise (in recursive mode) a recursive match when the filename agrees
with `source`'s filename and the modified file lies under the watched
directory; the recursive target is colocated with the modified file. -/
def find_sync_targets (cfg : MemoryProxyConfig) (modified_file : Path) :
    List (Path × Path) :=
  (cfg.mappings.map (fun m =>
    let target := m.1
    let source := m.2
    let source_path := cfg.directory ++ splitPath source
    if modified_file = source_path then
      [(modified_file, cfg.directory ++ splitPath target)]
    else if cfg.recursive && (pathName modified_file = pathName source_path)
        && isRelativeTo modified_file cfg.directory then
      [(modified_file, pathParent modified_file ++ splitPath target)]
    else [])).flatten

/-- Embedding of `SyncDebouncer`: time is modelled in abstract ticks (`Nat`); `time.time()`
readings are supplied by the caller as `now`. -/
structure SyncDebouncer where
  delay : Nat
  last_sync_time : Nat
  syncing : Bool
deriving DecidableEq, Repr

/-- Embedding of `SyncDebouncer.should_debounce`: debounce while a sync is in progress or
when the previous sync finished less than `delay` ago. -/
def should_debounce (d : SyncDebouncer) (now : Nat) : Bool :=
  if d.syncing then true
  else now - d.last_sync_time < d.delay

/-- Embedding of `SyncDebouncer.start_sync`. -/
def start_sync (d : SyncDebouncer) : SyncDebouncer :=
  { d with syncing := true }

/-- Embedding of `SyncDebouncer.finish_sync`: clear the flag and stamp the completion
time. -/
def finish_sync (d : SyncDebouncer) (now : Nat) : SyncDebouncer :=
  { d with syncing := false, last_sync_time := now }

/-- Embedding of the `finally:` clause of `MemorySyncHandler._process_file_modification`:
`if self.debouncer.syncing: self.debouncer.syncing = False`. -/
def finallyResetSyncing (d : SyncDebouncer) : SyncDebouncer :=
  if d.syncing then { d with syncing := false } else d

/-- Result of one `_process_file_modification` call: the filesystem, the
debouncer state at return, the log lines, and how many times
`finish_sync` ran during the call. -/
structure ProcessResult where
  fs : FS
  debouncer : SyncDebouncer
  logs : List LogEntry
  finishCalls : Nat
deriving DecidableEq, Repr

/-- The consolidated summary line of `_log_sync_results` (via
`PathUtils.get_relative_path_info`). -/
def logSyncResultsLine (cfg : MemoryProxyConfig) (source_file : Path)
    (synced_paths : List Path) : List LogEntry :=
  if synced_paths = [] then []
  else
    let rel := source_file.drop cfg.directory.length
    let source_dir :=
      if isRelativeTo source_file cfg.directory then
        if pathParent rel = [] then pathName cfg.directory
        else pathToString (pathParent rel)
      else pathToString (pathParent source_file)
    let source_name := pathName source_file
    let targets_str := String.intercalate (", ") (synced_paths.map pathName)
    [⟨.info, "Synced " ++ source_dir ++ "/" ++ source_name ++ " -> " ++ targets_str⟩]

/-- Embedding of `MemorySyncHandler._process_file_modification`: mark the sync started,
then inside a `try:` resolve the sync targets; when some exist, sync them
all, log the summary, and call `finish_sync`.  The `finally:` clause resets
the `syncing` flag if it is still set.  `exnInBody` injects an exception at
the start of the `try:` body (the Python body can raise, e.g. from the
matcher or the logging call); the `finally:` clause still runs in that
case and the exception then propagates to the caller. -/
def process_file_modification (cfg : MemoryProxyConfig) (ioErr : Path → Bool)
    (exnInBody : Bool) (now : Nat) (fs : FS) (d : SyncDebouncer)
    (file_path : Path) : ProcessResult :=
  let d0 := start_sync d
  if exnInBody then
    ⟨fs, finallyResetSyncing d0, [], 0⟩
  else
    let sync_targets := find_sync_targets cfg file_path
    if sync_targets.isEmpty then
      ⟨fs, finallyResetSyncing d0, [], 0⟩
    else
      let (fs1, synced_paths, logs) := sync_all_targets ioErr fs sync_targets
      let logs2 := logs ++ logSyncResultsLine cfg file_path synced_paths
      let d1 := finish_sync d0 now
      ⟨fs1, finallyResetSyncing d1, logs2, 1⟩

/-- Table `Config.AGENT_DEFAULTS` from `constants.py`. -/
def AGENT_DEFAULTS : List (String × String) :=
  [("claude", "CLAUDE.md"), ("gemini", "GEMINI.md"),
   ("cursor", ".cursor/rules/project.mdc"), ("qwen", "QWEN.md")]

/-- Constant `Config.CONFIG_FILENAME` from `constants.py`. -/
def CONFIG_FILENAME : String := ".amp.yaml"

/-- Embedding of `ConfigValidator.create_mappings`: build the target → source dict in
agent order; a Python dict keeps the first insertion position of a key, so
a duplicate target contributes no second entry. -/
def create_mappings (agents : List String) (truth_file : String) :
    List (String × String) :=
  agents.foldl (fun mappings agent =>
    let target_path := ((AGENT_DEFAULTS.find? (fun e => e.1 = agent)).map (·.2)).getD ("")
    if mappings.any (fun e => e.1 = target_path) then mappings
    else mappings ++ [(target_path, truth_file)]) []

/-- Constant `Config.DEBOUNCE_DELAY` (0.05 s), in the millisecond ticks used for
modelled time. -/
def DEBOUNCE_DELAY : Nat := 50

/-- Embedding of `MemorySyncHandler.__init__`: the handler owns its configuration, a
fresh debouncer (`last_sync_time = 0`, not syncing), and the set of
generated target files. -/
structure MemorySyncHandler where
  config : MemoryProxyConfig
  debouncer : SyncDebouncer
  target_files : List Path
deriving DecidableEq, Repr

/-- Construct a `MemorySyncHandler` from a validated configuration. -/
def mkMemorySyncHandler (cfg : MemoryProxyConfig) : MemorySyncHandler :=
  { config := cfg
    debouncer := ⟨DEBOUNCE_DELAY, 0, false⟩
    target_files := cfg.mappings.map (fun m => cfg.directory ++ splitPath m.1) }

/-- Whether any directory strictly between the watched directory and the
path `p` is marked ignored — the `dirs[:] = [d for d in dirs if not
is_ignored(...)]` pruning of `os.walk` seen from a candidate file. -/
def walkDirPruned (ign : Path → Bool) (directory p : Path) : Bool :=
  ((List.range p.length).map (fun n => p.take n)).any (fun q =>
    directory.isPrefixOf q && decide (directory.length < q.length) && ign q)

/-- Embedding of `MemorySyncHandler._find_source_file_recursive`: the first file under
the watched directory (in the deterministic enumeration order of the
filesystem model, standing for the `os.walk` order) whose filename is
`source_filename`, skipping files inside pruned ignored directories and
ignored candidate files when a gitignore manager is present. -/
def find_source_file_recursive (isIgnored : Option (Path → Bool))
    (cfg : MemoryProxyConfig) (fs : FS) (source_filename : String) :
    Option Path :=
  (fs.files.map (·.1)).find? (fun p =>
    isRelativeTo p cfg.directory && decide (cfg.directory.length < p.length)
    && (pathName p == source_filename)
    && (match isIgnored with
        | none => true
        | some ign => !walkDirPruned ign cfg.directory p && !ign p))

/-- Embedding of `MemorySyncHandler._sync_initial_mapping`: sync directly when
`directory / source` exists; otherwise in recursive mode search the tree
for the source filename and sync colocated with the find; otherwise warn. -/
def sync_initial_mapping (isIgnored : Option (Path → Bool))
    (ioErr : Path → Bool) (cfg : MemoryProxyConfig) (fs : FS)
    (target source : String) : FS × List LogEntry :=
  let source_path := cfg.directory ++ splitPath source
  if (getFile fs source_path).isSome then
    sync_file ioErr fs source_path (cfg.directory ++ splitPath target)
  else if cfg.recursive then
    match find_source_file_recursive isIgnored cfg fs source with
    | some found_source =>
        sync_file ioErr fs found_source (pathParent found_source ++ splitPath target)
    | none =>
        (fs, [⟨.warning, "Source file " ++ source ++ " not found in " ++
          pathToString cfg.directory ++ " or subdirectories"⟩])
  else
    (fs, [⟨.warning, "Source file " ++ pathToString source_path ++
      " does not exist, skipping initial sync"⟩])

/-- Embedding of `MemorySyncHandler.initial_sync`: run `_sync_initial_mapping` for every
mapping in order. -/
def initial_sync (isIgnored : Option (Path → Bool)) (ioErr : Path → Bool)
    (cfg : MemoryProxyConfig) (fs : FS) : FS × List LogEntry :=
  cfg.mappings.foldl (fun acc m =>
    let r := sync_initial_mapping isIgnored ioErr cfg acc.1 m.1 m.2
    (r.1, acc.2 ++ r.2))
    (fs, [⟨.info, "Performing initial sync for " ++ pathToString cfg.directory⟩])

/-- State of `MemoryProxyWatcher`: the handler registry keyed by configuration
path, the set of watched directories, the observer schedule entries
`(watch_path, recursive)`, plus the filesystem and the log. -/
structure WatcherState where
  handlers : List (Path × MemorySyncHandler)
  watched_directories : List Path
  scheduled : List (Path × Bool)
  fs : FS
  logs : List LogEntry
deriving DecidableEq, Repr

/-- Embedding of `MemoryProxyWatcher._add_watcher`: load the configuration (`loadConfig`
models `MemoryProxyConfig(config_path)`, `none` standing for a load/parse
exception, which the method catches and logs); skip with a warning when the
directory is already watched; otherwise build the handler, run the initial
sync, schedule the observer, and record the registration.  `ignOracle`
supplies the gitignore predicate rooted at a given directory. -/
def add_watcher (loadConfig : Path → Option MemoryProxyConfig)
    (ignOracle : Path → Path → Bool) (ioErr : Path → Bool)
    (st : WatcherState) (config_path : Path) : WatcherState :=
  match loadConfig config_path with
  | none =>
      { st with logs := st.logs ++
          [⟨.error, "Failed to add watcher for " ++ pathToString config_path⟩] }
  | some cfg =>
      let watch_path := cfg.directory
      if st.watched_directories.contains watch_path then
        { st with logs := st.logs ++
            [⟨.warning, "Directory " ++ pathToString watch_path ++
              " is already being watched, skipping " ++ pathToString config_path⟩] }
      else
        let handler := mkMemorySyncHandler cfg
        let ign := if cfg.respect_gitignore then some (ignOracle cfg.directory)
                   else none
        let r := initial_sync ign ioErr cfg st.fs
        { handlers := st.handlers ++ [(config_path, handler)]
          watched_directories := st.watched_directories ++ [watch_path]
          scheduled := st.scheduled ++ [(watch_path, cfg.recursive)]
          fs := r.1
          logs := st.logs ++ r.2 ++
            [⟨.info, "Watching directory: " ++ pathToString watch_path⟩] }

/-- A directory tree as enumerated by `os.walk`: a name, the plain files
directly inside, and the subdirectories (in walk order). -/
inductive FTree where
  | node (name : String) (files : List String) (subdirs : List FTree)
deriving Repr

/-- The name of the tree's root directory. -/
def FTree.name : FTree → String
  | .node n _ _ => n

/-- The plain files directly inside the tree's root directory. -/
def FTree.filesOf : FTree → List String
  | .node _ fl _ => fl

/-- The subdirectories of the tree's root directory. -/
def FTree.subdirsOf : FTree → List FTree
  | .node _ _ s => s

mutual

/-- Embedding of `MemoryProxyWatcher._scan_for_configs`: walk the directory top-down;
wherever the configuration filename is among a directory's files, record
`that directory / CONFIG_FILENAME` and clear the walk's subdirectory list
(do not descend further there); otherwise continue into the
subdirectories. -/
def scan_for_configs (dirPath : Path) : FTree → List Path
  | .node _ files subdirs =>
      if CONFIG_FILENAME ∈ files then [dirPath ++ [CONFIG_FILENAME]]
      else scanSubdirs dirPath subdirs

/-- The walk over the remaining subdirectories of one directory. -/
def scanSubdirs (dirPath : Path) : List FTree → List Path
  | [] => []
  | t :: ts => scan_for_configs (dirPath ++ [t.name]) t ++ scanSubdirs dirPath ts

end

/-- Modelled from the spec (the gitignore pattern language itself lives in
the external `pathspec` library, not in this repository): gitignore
semantics restricted to plain directory-name patterns — a path relative to
the watched root is marked ignored exactly when one of its components is
one of the patterns, which is standard gitignore behaviour for a bare name
such as `build`. -/
def litPatternIgnored (patterns : List String) (rel : Path) : Bool :=
  rel.any (fun c => patterns.contains c)

/-! ### Helper lemmas -/

theorem finallyResetSyncing_syncing (d : SyncDebouncer) :
    (finallyResetSyncing d).syncing = false := by
  cases h : d.syncing <;> simp [finallyResetSyncing, h]

theorem finallyResetSyncing_last (d : SyncDebouncer) :
    (finallyResetSyncing d).last_sync_time = d.last_sync_time := by
  cases h : d.syncing <;> simp [finallyResetSyncing, h]

theorem find?_ext {α : Type} (f g : α → Bool) (l : List α) (h : ∀ a, f a = g a) :
    l.find? f = l.find? g := by
  induction l with
  | nil => rfl
  | cons a rest ih => simp [List.find?_cons, h a, ih]

theorem find?_filter_ne (l : List (Path × String)) (p q : Path) (hqp : q ≠ p) :
    (l.filter (fun e => ¬(e.1 = p))).find? (fun e => e.1 = q) =
      l.find? (fun e => e.1 = q) := by
  rw [List.find?_filter]
  apply find?_ext
  intro a
  by_cases h : a.1 = q <;> simp [h, hqp]

theorem getFile_setFile (fs : FS) (p q : Path) (c : String) :
    getFile (setFile fs p c) q = if q = p then some c else getFile fs q := by
  by_cases hqp : q = p
  · subst hqp
    simp [getFile, setFile, List.find?_cons]
  · simp only [getFile, setFile, List.find?_cons, if_neg hqp]
    rw [show (decide (p = q)) = false from by simpa using Ne.symm hqp]
    rw [find?_filter_ne fs.files p q hqp]

theorem getFile_mkdirs (fs : FS) (p q : Path) :
    getFile (mkdirs fs p) q = getFile fs q := rfl

theorem hasDir_setFile (fs : FS) (p q : Path) (c : String) :
    hasDir (setFile fs p c) q = hasDir fs q := rfl

theorem hasDir_mkdirs_self (fs : FS) (p : Path) :
    hasDir (mkdirs fs p) p = true := by
  have hp : p ∈ (List.range (p.length + 1)).map (fun n => p.take n) :=
    List.mem_map.mpr ⟨p.length, by simp [List.mem_range], by simp⟩
  simp [hasDir, mkdirs, List.mem_append_left _ hp]

theorem hasDir_mkdirs_mono (fs : FS) (p q : Path) (h : hasDir fs q = true) :
    hasDir (mkdirs fs p) q = true := by
  simp only [hasDir] at h
  simp only [hasDir, mkdirs]
  simp at h
  simp [h]

theorem sync_file_fs_ok (ioErr : Path → Bool) (fs : FS) (s t : Path)
    (C : String) (hE : ∀ q, ioErr q = false) (hC : getFile fs s = some C) :
    (sync_file ioErr fs s t).1 = setFile (mkdirs fs (pathParent t)) t C := by
  simp [sync_file, hC, hE, write_file]

theorem sync_all_targets_cons_fs (ioErr : Path → Bool) (fs : FS) (s t : Path)
    (rest : List (Path × Path)) :
    (sync_all_targets ioErr fs ((s, t) :: rest)).1 =
      (sync_all_targets ioErr (sync_file ioErr fs s t).1 rest).1 := rfl

theorem sync_all_targets_roundtrip_aux (ioErr : Path → Bool) (src : Path)
    (C : String) (hE : ∀ q, ioErr q = false) :
    ∀ (pairs : List (Path × Path)) (fs : FS),
      (∀ pr ∈ pairs, pr.1 = src) → getFile fs src = some C →
      (∀ q, getFile fs q = some C →
        getFile (sync_all_targets ioErr fs pairs).1 q = some C) ∧
      (∀ q, hasDir fs q = true →
        hasDir (sync_all_targets ioErr fs pairs).1 q = true) ∧
      (∀ pr ∈ pairs,
        getFile (sync_all_targets ioErr fs pairs).1 pr.2 = some C ∧
        hasDir (sync_all_targets ioErr fs pairs).1 (pathParent pr.2) = true) := by
  intro pairs
  induction pairs with
  | nil =>
      intro fs _ _
      exact ⟨fun q h => h, fun q h => h, by simp⟩
  | cons pr rest ih =>
      intro fs hfst hsrc
      obtain ⟨s, t⟩ := pr
      have hs : s = src := hfst (s, t) (by simp)
      subst hs
      have hstep : (sync_file ioErr fs s t).1 =
          setFile (mkdirs fs (pathParent t)) t C :=
        sync_file_fs_ok ioErr fs s t C hE hsrc
      have h1 : ∀ q, getFile fs q = some C →
          getFile (sync_file ioErr fs s t).1 q = some C := by
        intro q hq
        rw [hstep, getFile_setFile]
        by_cases hqt : q = t
        · simp [hqt]
        · simp only [if_neg hqt]
          rw [getFile_mkdirs]
          exact hq
      have h1d : ∀ q, hasDir fs q = true →
          hasDir (sync_file ioErr fs s t).1 q = true := by
        intro q hq
        rw [hstep, hasDir_setFile]
        exact hasDir_mkdirs_mono _ _ _ hq
      have hsrc1 : getFile (sync_file ioErr fs s t).1 s = some C := h1 s hsrc
      have ht : getFile (sync_file ioErr fs s t).1 t = some C := by
        rw [hstep, getFile_setFile]
        simp
      have htd : hasDir (sync_file ioErr fs s t).1 (pathParent t) = true := by
        rw [hstep, hasDir_setFile]
        exact hasDir_mkdirs_self _ _
      have hrest := ih (sync_file ioErr fs s t).1
        (fun pr hpr => hfst pr (List.mem_cons_of_mem _ hpr)) hsrc1
      refine ⟨?_, ?_, ?_⟩
      · intro q hq
        rw [sync_all_targets_cons_fs]
        exact hrest.1 q (h1 q hq)
      · intro q hq
        rw [sync_all_targets_cons_fs]
        exact hrest.2.1 q (h1d q hq)
      · intro pr hpr
        rcases List.mem_cons.mp hpr with heq | hm
        · subst heq
          rw [sync_all_targets_cons_fs]
          exact ⟨hrest.1 t ht, hrest.2.1 (pathParent t) htd⟩
        · rw [sync_all_targets_cons_fs]
          exact hrest.2.2 pr hm

theorem find_sync_targets_fst (cfg : MemoryProxyConfig) (mf : Path) :
    ∀ pr ∈ find_sync_targets cfg mf, pr.1 = mf := by
  intro pr hpr
  simp only [find_sync_targets, List.mem_flatten, List.mem_map] at hpr
  obtain ⟨l, ⟨m, hm, rfl⟩, hin⟩ := hpr
  split at hin
  · simp at hin
    rw [hin]
  · split at hin
    · simp at hin
      rw [hin]
    · simp at hin

/-! ### Claim theorems -/

/-- C6: for every call into `_process_file_modification`, the debouncer's
`syncing` flag is false when the call returns — on the success path, the
zero-target path, and the path where the body raised an exception. -/
theorem process_never_leaves_syncing_true (cfg : MemoryProxyConfig)
    (ioErr : Path → Bool) (exnInBody : Bool) (now : Nat) (fs : FS)
    (d : SyncDebouncer) (file_path : Path) :
    (process_file_modification cfg ioErr exnInBody now fs d
      file_path).debouncer.syncing = false := by
  unfold process_file_modification
  cases exnInBody with
  | true => simp [finallyResetSyncing_syncing]
  | false =>
      dsimp only
      cases h : (find_sync_targets cfg file_path).isEmpty with
      | true => simp [h, finallyResetSyncing_syncing]
      | false => simp [h, finallyResetSyncing_syncing]

/-- C1 counterexample: a modification event that matches zero targets does
not call `finish_sync` at all (the `finally:` clause merely resets the
flag), refuting "finish_sync is called exactly once before the handler
returns, on every exit path — including the case where zero targets were
matched". -/
theorem process_zero_targets_skips_finish_sync_cex :
    (process_file_modification ⟨["r"], [("CLAUDE.md", "AGENT.md")], true, true⟩
      (fun _ => false) false 100 ⟨[], []⟩ ⟨50, 0, false⟩
      ["r", "HELLO.md"]).finishCalls = 0 := by decide

/-- C1 amended: `finish_sync` runs exactly once when the body completes
without an exception and the target set is nonempty, and zero times
otherwise; on every exit path the `syncing` flag is false at return, and
the debounce timestamp is updated exactly on the `finish_sync` path. -/
theorem process_finish_sync_only_on_nonempty_success (cfg : MemoryProxyConfig)
    (ioErr : Path → Bool) (exnInBody : Bool) (now : Nat) (fs : FS)
    (d : SyncDebouncer) (file_path : Path) :
    (process_file_modification cfg ioErr exnInBody now fs d file_path).finishCalls
        = (if exnInBody = false ∧ (find_sync_targets cfg file_path).isEmpty = false
           then 1 else 0)
    ∧ (process_file_modification cfg ioErr exnInBody now fs d
        file_path).debouncer.syncing = false
    ∧ (process_file_modification cfg ioErr exnInBody now fs d
        file_path).debouncer.last_sync_time
        = (if exnInBody = false ∧ (find_sync_targets cfg file_path).isEmpty = false
           then now else d.last_sync_time) := by
  unfold process_file_modification
  cases exnInBody with
  | true => simp [finallyResetSyncing_syncing, finallyResetSyncing_last, start_sync]
  | false =>
      dsimp only
      cases h : (find_sync_targets cfg file_path).isEmpty with
      | true =>
          simp [h, finallyResetSyncing_syncing, finallyResetSyncing_last, start_sync]
      | false =>
          simp [h, finallyResetSyncing_syncing, finallyResetSyncing_last,
            start_sync, finish_sync]

/-- C7: syncing from a nonexistent source returns without raising, leaves
the filesystem (target file and directories) completely untouched, and
logs the event at warning level. -/
theorem sync_file_missing_source_noop (ioErr : Path → Bool) (fs : FS)
    (source target : Path) (h : getFile fs source = none) :
    sync_file ioErr fs source target =
      (fs, [⟨.warning, "Source file " ++ pathToString source ++
        " does not exist"⟩]) := by
  simp [sync_file, h]

/-- Witness for C7 at a concrete filesystem with no source file. -/
theorem sync_file_missing_source_noop_witness :
    getFile ⟨[(["r", "B.md"], "keep")], []⟩ ["r", "A.md"] = none ∧
    sync_file (fun _ => false) ⟨[(["r", "B.md"], "keep")], []⟩ ["r", "A.md"]
        ["r", "T.md"] =
      (⟨[(["r", "B.md"], "keep")], []⟩,
       [⟨.warning, "Source file " ++ pathToString ["r", "A.md"] ++
         " does not exist"⟩]) :=
  ⟨by decide, sync_file_missing_source_noop _ _ _ _ (by decide)⟩

/-- C8: `_sync_all_targets` attempts every pair of the batch no matter
which reads or writes fail (`ioErr` is an arbitrary failure pattern):
`sync_file` is a total function — every I/O exception is caught inside it
— and the loop records every target as attempted. -/
theorem sync_all_targets_attempts_every_pair (ioErr : Path → Bool) (fs : FS)
    (pairs : List (Path × Path)) :
    (sync_all_targets ioErr fs pairs).2.1 = pairs.map (fun pr => pr.2) := by
  induction pairs generalizing fs with
  | nil => rfl
  | cons pr rest ih =>
      obtain ⟨s, t⟩ := pr
      simp [sync_all_targets, ih]

/-- C3: in one non-debounced handler pass, every resolved target file
afterwards contains exactly the source content `C` byte-for-byte (full
overwrite, nothing added or stripped), and the target's parent directory
chain exists (created as needed). -/
theorem sync_pass_roundtrip_content (cfg : MemoryProxyConfig)
    (ioErr : Path → Bool) (now : Nat) (fs : FS) (d : SyncDebouncer)
    (modified_file : Path) (C : String)
    (hE : ∀ q, ioErr q = false)
    (hC : getFile fs modified_file = some C) :
    ∀ pr ∈ find_sync_targets cfg modified_file,
      getFile (process_file_modification cfg ioErr false now fs d
        modified_file).fs pr.2 = some C ∧
      hasDir (process_file_modification cfg ioErr false now fs d
        modified_file).fs (pathParent pr.2) = true := by
  intro pr hpr
  have hne : (find_sync_targets cfg modified_file).isEmpty = false := by
    cases h : find_sync_targets cfg modified_file with
    | nil => rw [h] at hpr; simp at hpr
    | cons a l => simp
  have hfs : (process_file_modification cfg ioErr false now fs d
      modified_file).fs =
      (sync_all_targets ioErr fs (find_sync_targets cfg modified_file)).1 := by
    simp [process_file_modification, hne]
  rw [hfs]
  exact (sync_all_targets_roundtrip_aux ioErr modified_file C hE
    (find_sync_targets cfg modified_file) fs
    (find_sync_targets_fst cfg modified_file) hC).2.2 pr hpr

/-- Witness for C3: syncing `r/AGENT.md = "hello"` puts exactly `"hello"`
into `r/CLAUDE.md`. -/
theorem sync_pass_roundtrip_content_witness :
    getFile ⟨[(["r", "AGENT.md"], "hello")], []⟩ ["r", "AGENT.md"] = some ("hello") ∧
    (["r", "AGENT.md"], ["r", "CLAUDE.md"]) ∈
      find_sync_targets ⟨["r"], [("CLAUDE.md", "AGENT.md")], true, true⟩
        ["r", "AGENT.md"] ∧
    getFile (process_file_modification
      ⟨["r"], [("CLAUDE.md", "AGENT.md")], true, true⟩ (fun _ => false) false
      100 ⟨[(["r", "AGENT.md"], "hello")], []⟩ ⟨50, 0, false⟩
      ["r", "AGENT.md"]).fs ["r", "CLAUDE.md"] = some ("hello") :=
  ⟨by decide, by decide,
   (sync_pass_roundtrip_content ⟨["r"], [("CLAUDE.md", "AGENT.md")], true, true⟩
      (fun _ => false) 100 ⟨[(["r", "AGENT.md"], "hello")], []⟩ ⟨50, 0, false⟩
      ["r", "AGENT.md"] "hello" (fun q => rfl) (by decide)
      (["r", "AGENT.md"], ["r", "CLAUDE.md"]) (by decide)).1⟩

/-- C4: in recursive mode, a modified file with the configured source
filename lying strictly below the watched directory yields, for each such
mapping, the pair whose target is colocated in the modified file's own
parent directory. -/
theorem find_sync_targets_recursive_colocated (cfg : MemoryProxyConfig)
    (target source : String) (modified_file : Path)
    (hrec : cfg.recursive = true)
    (hmem : (target, source) ∈ cfg.mappings)
    (hsingle : (splitPath source).length = 1)
    (hname : pathName modified_file = pathName (cfg.directory ++ splitPath source))
    (hunder : isRelativeTo modified_file cfg.directory = true)
    (hdepth : cfg.directory.length + 2 ≤ modified_file.length) :
    (modified_file, pathParent modified_file ++ splitPath target) ∈
      find_sync_targets cfg modified_file := by
  have hne : ¬(modified_file = cfg.directory ++ splitPath source) := by
    intro h
    have hlen := congrArg List.length h
    rw [List.length_append, hsingle] at hlen
    omega
  simp only [find_sync_targets, List.mem_flatten, List.mem_map]
  refine ⟨_, ⟨(target, source), hmem, rfl⟩, ?_⟩
  simp [hne, hrec, hname, hunder]

/-- Witness for C4: `r/sub/AGENT.md` maps to `r/sub/CLAUDE.md`, not to the
configuration root. -/
theorem find_sync_targets_recursive_colocated_witness :
    (["r", "sub", "AGENT.md"], ["r", "sub", "CLAUDE.md"]) ∈
      find_sync_targets ⟨["r"], [("CLAUDE.md", "AGENT.md")], true, true⟩
        ["r", "sub", "AGENT.md"] :=
  find_sync_targets_recursive_colocated
    ⟨["r"], [("CLAUDE.md", "AGENT.md")], true, true⟩ "CLAUDE.md" "AGENT.md"
    ["r", "sub", "AGENT.md"] rfl (by decide) (by decide) (by decide) (by decide)
    (by decide)

theorem flatten_map_eq_map {α β : Type} (l : List α) (f : α → List β)
    (g : α → β) (h : ∀ a ∈ l, f a = [g a]) : (l.map f).flatten = l.map g := by
  induction l with
  | nil => rfl
  | cons a rest ih =>
      simp only [List.map_cons, List.flatten_cons, h a (by simp)]
      rw [ih (fun x hx => h x (by simp [hx]))]
      rfl

theorem flatten_map_eq_nil {α β : Type} (l : List α) (f : α → List β)
    (h : ∀ a ∈ l, f a = []) : (l.map f).flatten = [] := by
  induction l with
  | nil => rfl
  | cons a rest ih =>
      simp only [List.map_cons, List.flatten_cons, h a (by simp), List.nil_append]
      exact ih (fun x hx => h x (by simp [hx]))

theorem create_mappings_sources (agents : List String) (tf : String) :
    ∀ m ∈ create_mappings agents tf, m.2 = tf := by
  have key : ∀ (ags : List String) (acc : List (String × String)),
      (∀ m ∈ acc, m.2 = tf) →
      ∀ m ∈ ags.foldl (fun mappings agent =>
          let target_path :=
            ((AGENT_DEFAULTS.find? (fun e => e.1 = agent)).map (·.2)).getD ("")
          if mappings.any (fun e => e.1 = target_path) then mappings
          else mappings ++ [(target_path, tf)]) acc, m.2 = tf := by
    intro ags
    induction ags with
    | nil =>
        intro acc hacc
        simpa using hacc
    | cons a rest ih =>
        intro acc hacc
        rw [List.foldl_cons]
        apply ih
        dsimp only
        split
        · exact hacc
        · intro m hm
          rcases List.mem_append.mp hm with h1 | h2
          · exact hacc m h1
          · simp only [List.mem_singleton] at h2
            rw [h2]
  intro m hm
  exact key agents [] (by simp) m hm

/-- C5: a modification event on the configured truth file at the
configuration root yields exactly one pair per mapping, each target at
`directory / target_rel`, in mapping declaration order. -/
theorem find_sync_targets_truth_file_fanout (cfg : MemoryProxyConfig)
    (agents : List String) (tf : String)
    (hm : cfg.mappings = create_mappings agents tf) :
    find_sync_targets cfg (cfg.directory ++ splitPath tf) =
      cfg.mappings.map (fun m =>
        (cfg.directory ++ splitPath tf, cfg.directory ++ splitPath m.1)) := by
  simp only [find_sync_targets]
  apply flatten_map_eq_map
  intro m hmem
  have hsrc : m.2 = tf := by
    rw [hm] at hmem
    exact create_mappings_sources agents tf m hmem
  simp [hsrc]

/-- Witness for C5 with agents `[claude, gemini]` and truth file
`AGENT.md`. -/
theorem find_sync_targets_truth_file_fanout_witness :
    find_sync_targets
        ⟨["r"], create_mappings ["claude", "gemini"] "AGENT.md", true, true⟩
        (["r"] ++ splitPath ("AGENT.md")) =
      (create_mappings ["claude", "gemini"] "AGENT.md").map (fun m =>
        (["r"] ++ splitPath ("AGENT.md"), ["r"] ++ splitPath m.1)) ∧
    find_sync_targets
        ⟨["r"], create_mappings ["claude", "gemini"] "AGENT.md", true, true⟩
        ["r", "AGENT.md"] =
      [(["r", "AGENT.md"], ["r", "CLAUDE.md"]),
       (["r", "AGENT.md"], ["r", "GEMINI.md"])] :=
  ⟨find_sync_targets_truth_file_fanout
      ⟨["r"], create_mappings ["claude", "gemini"] "AGENT.md", true, true⟩
      ["claude", "gemini"] "AGENT.md" rfl,
   by decide⟩

/-- C10: with a `create_mappings` configuration (all mappings share the
truth filename as source), any modified file yields either no pair at all
or exactly one pair per mapping — an exact match suppresses the recursive
branch per mapping, and all mappings agree on whether they match. -/
theorem find_sync_targets_all_or_nothing (cfg : MemoryProxyConfig)
    (agents : List String) (tf : String) (modified_file : Path)
    (hm : cfg.mappings = create_mappings agents tf) :
    find_sync_targets cfg modified_file = [] ∨
    ∃ base, find_sync_targets cfg modified_file =
      cfg.mappings.map (fun m => (modified_file, base ++ splitPath m.1)) := by
  have hsrc : ∀ m ∈ cfg.mappings, m.2 = tf := by
    intro m hmem
    rw [hm] at hmem
    exact create_mappings_sources agents tf m hmem
  by_cases h1 : modified_file = cfg.directory ++ splitPath tf
  · right
    refine ⟨cfg.directory, ?_⟩
    simp only [find_sync_targets]
    apply flatten_map_eq_map
    intro m hmem
    simp [hsrc m hmem, h1]
  · by_cases h2 : cfg.recursive = true ∧
        pathName modified_file = pathName (cfg.directory ++ splitPath tf) ∧
        isRelativeTo modified_file cfg.directory = true
    · right
      refine ⟨pathParent modified_file, ?_⟩
      simp only [find_sync_targets]
      apply flatten_map_eq_map
      intro m hmem
      simp [hsrc m hmem, h1, h2.1, h2.2.1, h2.2.2]
    · left
      simp only [find_sync_targets]
      apply flatten_map_eq_nil
      intro m hmem
      have hcond : ¬((cfg.recursive &&
          decide (pathName modified_file =
            pathName (cfg.directory ++ splitPath tf)) &&
          isRelativeTo modified_file cfg.directory) = true) := by
        intro hc
        simp only [Bool.and_eq_true, decide_eq_true_eq] at hc
        exact h2 ⟨hc.1.1, hc.1.2, hc.2⟩
      simp [hsrc m hmem, h1, hcond]

/-- Witness for C10 at a non-matching modified file. -/
theorem find_sync_targets_all_or_nothing_witness :
    find_sync_targets ⟨["r"], create_mappings ["claude"] "AGENT.md", true, true⟩
        ["x", "note.txt"] = [] ∨
    ∃ base, find_sync_targets
        ⟨["r"], create_mappings ["claude"] "AGENT.md", true, true⟩
        ["x", "note.txt"] =
      (create_mappings ["claude"] "AGENT.md").map (fun m =>
        (["x", "note.txt"], base ++ splitPath m.1)) :=
  find_sync_targets_all_or_nothing
    ⟨["r"], create_mappings ["claude"] "AGENT.md", true, true⟩ ["claude"]
    "AGENT.md" ["x", "note.txt"] rfl

/-- C2 counterexample: discovery does not consult gitignore rules — with a
root `.gitignore` carrying the bare directory-name pattern `build` (which
marks the directory `build` ignored), `_scan_for_configs` still descends
into `build` and records the configuration file inside it. -/
theorem scan_records_config_in_ignored_dir_cex :
    scan_for_configs ["root"]
        (.node ("root") ["README.md"] [.node ("build") [".amp.yaml"] []]) =
      [["root", "build", ".amp.yaml"]] ∧
    litPatternIgnored ["build"] ["build"] = true :=
  ⟨by decide, by decide⟩

theorem scanSubdirs_mem (dirPath : Path) (c : FTree) :
    ∀ subs : List FTree, c ∈ subs → CONFIG_FILENAME ∈ c.filesOf →
      dirPath ++ [c.name, CONFIG_FILENAME] ∈ scanSubdirs dirPath subs := by
  intro subs
  induction subs with
  | nil =>
      intro h
      simp at h
  | cons t ts ih =>
      intro hmem hfile
      rw [scanSubdirs]
      rcases List.mem_cons.mp hmem with heq | hm
      · subst heq
        obtain ⟨nm, fls, sub⟩ := c
        rw [scan_for_configs]
        simp only [FTree.filesOf] at hfile
        rw [if_pos hfile]
        apply List.mem_append_left
        simp [FTree.name, List.append_assoc]
      · exact List.mem_append_right _ (ih hm hfile)

/-- C2 amended: configuration discovery prunes descent only below
directories that themselves contain a configuration file; it does not
consult gitignore rules, so a configuration file directly inside any child
directory of a configuration-free directory — an ignored child included —
is recorded. -/
theorem scan_for_configs_prunes_only_at_configs :
    (∀ (dirPath : Path) (nm : String) (files : List String)
       (subs : List FTree),
       CONFIG_FILENAME ∈ files →
       scan_for_configs dirPath (.node nm files subs) =
         [dirPath ++ [CONFIG_FILENAME]]) ∧
    (∀ (dirPath : Path) (nm : String) (files : List String)
       (subs : List FTree) (c : FTree),
       CONFIG_FILENAME ∉ files → c ∈ subs → CONFIG_FILENAME ∈ c.filesOf →
       dirPath ++ [c.name, CONFIG_FILENAME] ∈
         scan_for_configs dirPath (.node nm files subs)) := by
  constructor
  · intro dirPath nm files subs h
    rw [scan_for_configs, if_pos h]
  · intro dirPath nm files subs c hnot hmem hfile
    rw [scan_for_configs, if_neg hnot]
    exact scanSubdirs_mem dirPath c subs hmem hfile

/-- Witness for C2 amended: descent stops at a root-level configuration,
and a configuration inside a child such as `node_modules` of a config-free
root is recorded. -/
theorem scan_for_configs_prunes_only_at_configs_witness :
    scan_for_configs ["r"]
        (.node ("r") [".amp.yaml", "x.md"] [.node ("sub") [".amp.yaml"] []]) =
      [["r", ".amp.yaml"]] ∧
    ["r", "node_modules", ".amp.yaml"] ∈
      scan_for_configs ["r"]
        (.node ("r") ["x.md"] [.node ("node_modules") [".amp.yaml"] []]) :=
  ⟨scan_for_configs_prunes_only_at_configs.1 ["r"] "r" [".amp.yaml", "x.md"]
      [.node ("sub") [".amp.yaml"] []] (by decide),
   scan_for_configs_prunes_only_at_configs.2 ["r"] "r" ["x.md"]
      [.node ("node_modules") [".amp.yaml"] []]
      (.node ("node_modules") [".amp.yaml"] []) (by decide) (by simp)
      (by decide)⟩

/-- C9: a directory is registered at most once.  When the loaded
configuration's directory is already watched, the call leaves the
registry, the schedule, the handlers, and the filesystem unchanged and
only logs a warning; when it is not yet watched, the handler is built,
the initial sync runs, and the registration is appended; and the
no-duplicates invariant of the watched-directory registry is preserved. -/
theorem add_watcher_at_most_once (loadConfig : Path → Option MemoryProxyConfig)
    (ignOracle : Path → Path → Bool) (ioErr : Path → Bool)
    (st : WatcherState) (config_path : Path) (cfg : MemoryProxyConfig)
    (hload : loadConfig config_path = some cfg) :
    (cfg.directory ∈ st.watched_directories →
      (add_watcher loadConfig ignOracle ioErr st config_path).handlers =
          st.handlers ∧
      (add_watcher loadConfig ignOracle ioErr st config_path).watched_directories =
          st.watched_directories ∧
      (add_watcher loadConfig ignOracle ioErr st config_path).scheduled =
          st.scheduled ∧
      (add_watcher loadConfig ignOracle ioErr st config_path).fs = st.fs ∧
      (add_watcher loadConfig ignOracle ioErr st config_path).logs =
          st.logs ++ [⟨.warning, "Directory " ++ pathToString cfg.directory ++
            " is already being watched, skipping " ++
            pathToString config_path⟩]) ∧
    (cfg.directory ∉ st.watched_directories →
      (add_watcher loadConfig ignOracle ioErr st config_path).handlers =
          st.handlers ++ [(config_path, mkMemorySyncHandler cfg)] ∧
      (add_watcher loadConfig ignOracle ioErr st config_path).watched_directories =
          st.watched_directories ++ [cfg.directory] ∧
      (add_watcher loadConfig ignOracle ioErr st config_path).scheduled =
          st.scheduled ++ [(cfg.directory, cfg.recursive)] ∧
      (add_watcher loadConfig ignOracle ioErr st config_path).fs =
          (initial_sync (if cfg.respect_gitignore then
              some (ignOracle cfg.directory) else none) ioErr cfg st.fs).1) ∧
    (st.watched_directories.Nodup →
      (add_watcher loadConfig ignOracle ioErr st
        config_path).watched_directories.Nodup) := by
  refine ⟨?_, ?_, ?_⟩
  · intro hmem
    simp [add_watcher, hload, hmem]
  · intro hmem
    simp [add_watcher, hload, hmem]
  · intro hnd
    by_cases hmem : cfg.directory ∈ st.watched_directories
    · simpa [add_watcher, hload, hmem] using hnd
    · have : (add_watcher loadConfig ignOracle ioErr st
          config_path).watched_directories =
          st.watched_directories ++ [cfg.directory] := by
        simp [add_watcher, hload, hmem]
      rw [this, List.nodup_append]
      exact ⟨hnd, List.nodup_singleton _, fun a ha hb => by
        simp at hb
        subst hb
        exact hmem ha⟩

/-- Witness for C9: a second configuration claiming the already-watched
directory `r` leaves the registry, the handlers, and the filesystem
unchanged. -/
theorem add_watcher_at_most_once_witness :
    (add_watcher
        (fun p => if p = ["r", ".amp.yaml"] then
          some ⟨["r"], [("CLAUDE.md", "AGENT.md")], true, false⟩ else none)
        (fun _ _ => false) (fun _ => false)
        ⟨[], [["r"]], [], ⟨[], []⟩, []⟩ ["r", ".amp.yaml"]).handlers = [] ∧
    (add_watcher
        (fun p => if p = ["r", ".amp.yaml"] then
          some ⟨["r"], [("CLAUDE.md", "AGENT.md")], true, false⟩ else none)
        (fun _ _ => false) (fun _ => false)
        ⟨[], [["r"]], [], ⟨[], []⟩, []⟩
        ["r", ".amp.yaml"]).watched_directories = [["r"]] ∧
    (add_watcher
        (fun p => if p = ["r", ".amp.yaml"] then
          some ⟨["r"], [("CLAUDE.md", "AGENT.md")], true, false⟩ else none)
        (fun _ _ => false) (fun _ => false)
        ⟨[], [["r"]], [], ⟨[], []⟩, []⟩ ["r", ".amp.yaml"]).fs = ⟨[], []⟩ := by
  have h := (add_watcher_at_most_once
    (fun p => if p = ["r", ".amp.yaml"] then
      some ⟨["r"], [("CLAUDE.md", "AGENT.md")], true, false⟩ else none)
    (fun _ _ => false) (fun _ => false)
    ⟨[], [["r"]], [], ⟨[], []⟩, []⟩ ["r", ".amp.yaml"]
    ⟨["r"], [("CLAUDE.md", "AGENT.md")], true, false⟩ (by decide)).1
    (by decide)
  exact ⟨h.1, h.2.1, h.2.2.2.1⟩

end AgentMemoryProxy
